import Mathlib

/-!
# Verification of the WNTR repository's specification

This development embeds, in Lean 4, the parts of the WNTR water-network
code base needed to settle the frozen claims:

* the economic metrics module `wntr/metrics/economic.py` (`cost`,
  `ghg_emissions`, `pump_energy`), embedded directly from the source
  with exact rational arithmetic in place of floating point;
* the hydraulic time-stepping engine (pause/resume, reset, serialization,
  mass-balance convergence, tank clamping, time indexing).  The engine's
  own source files are not part of the excerpt (only its tests are), so it
  is modelled from the specification: those definitions carry a
  `Modelled from the spec:` doc comment.

All numeric values are rationals (`ℚ`); times are naturals (seconds).
-/

namespace WNTR

/-! ## Nearest-entry lookup tables (from `economic.py`)

A pandas `Series` used as a lookup table is modelled as a list of
`(index, value)` pairs.  The source selects an entry with
`idx = np.argmin([np.abs(series.index - x)])` followed by
`series.iloc[idx]`: the first entry whose index has minimal absolute
difference from `x`. -/

/-- Fold mirroring `np.argmin` over the absolute differences
`|index - x|`: keeps the earliest entry achieving the minimum
(`np.argmin` returns the first occurrence of the minimum). -/
def argminAbs (x : ℚ) : ℚ × ℚ → List (ℚ × ℚ) → ℚ × ℚ
  | best, [] => best
  | best, p :: ps =>
    if |p.1 - x| < |best.1 - x| then argminAbs x p ps else argminAbs x best ps

/-- Model of `series.iloc[np.argmin([np.abs(series.index - x)])]` from the source:
the value of the first table entry whose index is nearest to `x`
(junk `0` on an empty table, where `np.argmin` would raise). -/
def lookupNearest (x : ℚ) : List (ℚ × ℚ) → ℚ
  | [] => 0
  | p :: ps => (argminAbs x p ps).2

/-- Specification-side characterisation: `v` is the value of some table
entry whose index achieves the smallest absolute difference from `x`. -/
def isNearest (table : List (ℚ × ℚ)) (x v : ℚ) : Prop :=
  ∃ p ∈ table, p.2 = v ∧ ∀ q ∈ table, |p.1 - x| ≤ |q.1 - x|

theorem argminAbs_spec (x : ℚ) :
    ∀ (ps : List (ℚ × ℚ)) (best : ℚ × ℚ),
      argminAbs x best ps ∈ best :: ps ∧
      ∀ q ∈ best :: ps, |(argminAbs x best ps).1 - x| ≤ |q.1 - x| := by
  intro ps
  induction ps with
  | nil =>
    intro best
    refine ⟨List.mem_cons_self _ _, ?_⟩
    intro q hq
    rcases List.mem_cons.mp hq with h | h
    · subst h; simp [argminAbs]
    · exact absurd h (List.not_mem_nil q)
  | cons p ps ih =>
    intro best
    by_cases hlt : |p.1 - x| < |best.1 - x|
    · have h := ih p
      have harg : argminAbs x best (p :: ps) = argminAbs x p ps := by
        simp [argminAbs, if_pos hlt]
      rw [harg]
      constructor
      · exact List.mem_cons_of_mem best h.1
      · intro q hq
        rcases List.mem_cons.mp hq with h1 | h1
        · subst h1
          exact le_of_lt (lt_of_le_of_lt (h.2 p (List.mem_cons_self _ _)) hlt)
        · exact h.2 q h1
    · have h := ih best
      have harg : argminAbs x best (p :: ps) = argminAbs x best ps := by
        simp [argminAbs, if_neg hlt]
      rw [harg]
      constructor
      · rcases List.mem_cons.mp h.1 with h1 | h1
        · rw [h1]; exact List.mem_cons_self _ _
        · exact List.mem_cons_of_mem best (List.mem_cons_of_mem p h1)
      · intro q hq
        rcases List.mem_cons.mp hq with h1 | h1
        · subst h1
          exact h.2 q (List.mem_cons_self _ _)
        · rcases List.mem_cons.mp h1 with h2 | h2
          · subst h2
            exact le_trans (h.2 best (List.mem_cons_self _ _))
              (le_of_not_lt hlt)
          · exact h.2 q (List.mem_cons_of_mem best h2)

theorem lookupNearest_isNearest (table : List (ℚ × ℚ)) (x : ℚ)
    (h : table ≠ []) : isNearest table x (lookupNearest x table) := by
  cases table with
  | nil => exact absurd rfl h
  | cons p ps =>
    have hs := argminAbs_spec x ps p
    exact ⟨argminAbs x p ps, hs.1, rfl, hs.2⟩

/-! ## Data model for the economic metrics (`economic.py`) -/

/-- A tank as seen by `cost`: diameter and min/max operating levels. -/
structure TankE where
  diameter : ℚ
  min_level : ℚ
  max_level : ℚ
  deriving DecidableEq, Repr

/-- A link as seen by `cost` / `ghg_emissions`.  For a pump, the source
computes a maximum power `Pmax` from the head-curve coefficients via
`9.81*1000/eff*exp(log(A/(B*(C+1)))/C)*(A - B*(exp(log(A/(B*(C+1)))/C))**C)`
(a transcendental real); that computed value is carried here as the
field `Pmax`, since only the nearest-entry lookup applied to it is at
issue. -/
inductive LinkE where
  | pipe (diameter length : ℚ)
  | pump (Pmax : ℚ)
  | valve (valve_type : String) (diameter : ℚ)
  deriving DecidableEq, Repr

/-- The network as consumed by `cost` and `ghg_emissions`:
`wn.nodes(Tank)` and `wn.links(...)`. -/
structure EconNetwork where
  tanks : List TankE
  links : List LinkE
  deriving DecidableEq, Repr

/-- Model of `wn.links(Pipe)`: the (diameter, length) pairs of the pipe links. -/
def pipesOf (wn : EconNetwork) : List (ℚ × ℚ) :=
  wn.links.filterMap fun l =>
    match l with
    | .pipe d len => some (d, len)
    | _ => none

/-- Model of `wn.links(Pump)`: the computed maximum powers of the pump links. -/
def pumpsOf (wn : EconNetwork) : List ℚ :=
  wn.links.filterMap fun l =>
    match l with
    | .pump pm => some pm
    | _ => none

/-- Model of `wn.links(Valve)` restricted to `link.valve_type == 'PRV'`:
the diameters of the PRV valves. -/
def prvDiamsOf (wn : EconNetwork) : List ℚ :=
  wn.links.filterMap fun l =>
    match l with
    | .valve vt d => if vt = "PRV" then some d else none
    | _ => none

/-- Default tank cost table (`volume ↦ annual cost`). -/
def default_tank_cost : List (ℚ × ℚ) :=
  [(500, 14020), (1000, 30640), (2000, 61210), (3750, 87460),
   (5000, 122420), (10000, 174930)]

/-- One inch in metres, `0.0254`, as used to build the default tables. -/
def inchQ : ℚ := 254 / 10000

/-- Default pipe cost table (`diameter in metres ↦ annual cost per metre`). -/
def default_pipe_cost : List (ℚ × ℚ) :=
  [(4 * inchQ, 831/100), (6 * inchQ, 101/10), (8 * inchQ, 121/10),
   (10 * inchQ, 1296/100), (12 * inchQ, 1522/100), (14 * inchQ, 1662/100),
   (16 * inchQ, 1941/100), (18 * inchQ, 222/10), (20 * inchQ, 2466/100),
   (24 * inchQ, 3569/100), (28 * inchQ, 4008/100), (30 * inchQ, 426/10)]

/-- Default PRV valve cost table (`diameter in metres ↦ annual cost`). -/
def default_prv_cost : List (ℚ × ℚ) :=
  [(4 * inchQ, 323), (6 * inchQ, 529), (8 * inchQ, 779), (10 * inchQ, 1113),
   (12 * inchQ, 1892), (14 * inchQ, 2282), (16 * inchQ, 4063),
   (18 * inchQ, 4452), (20 * inchQ, 4564), (24 * inchQ, 5287),
   (28 * inchQ, 6122), (30 * inchQ, 6790)]

/-- Default pump cost table (`maximum power ↦ annual cost`). -/
def default_pump_cost : List (ℚ × ℚ) :=
  [(11310, 2850), (22620, 3225), (24880, 3307), (31670, 3563),
   (38000, 3820), (45240, 4133), (49760, 4339), (54280, 4554),
   (59710, 4823)]

/-- Default pipe GHG emissions table (`diameter in metres ↦ kg-CO2-e/m/yr`). -/
def default_pipe_ghg : List (ℚ × ℚ) :=
  [(4 * inchQ, 59/10), (6 * inchQ, 971/100), (8 * inchQ, 1394/100),
   (10 * inchQ, 1843/100), (12 * inchQ, 2316/100), (14 * inchQ, 2809/100),
   (16 * inchQ, 3309/100), (18 * inchQ, 3835/100), (20 * inchQ, 4376/100),
   (24 * inchQ, 5499/100), (28 * inchQ, 6657/100), (30 * inchQ, 7258/100)]

/-- Function `cost` from `economic.py`: network construction cost accumulated
over tanks (lookup volume `(diameter/2)**2*(max_level-min_level)`),
pipes (nearest cost times length), pumps (nearest cost at `Pmax`), and
PRV valves, each via the nearest table entry. -/
def cost (wn : EconNetwork)
    (tank_cost pipe_cost prv_cost pump_cost : List (ℚ × ℚ)) : ℚ :=
  let c1 := wn.tanks.foldl
    (fun acc t =>
      acc + lookupNearest ((t.diameter / 2) ^ 2 * (t.max_level - t.min_level))
              tank_cost) 0
  let c2 := (pipesOf wn).foldl
    (fun acc p => acc + lookupNearest p.1 pipe_cost * p.2) c1
  let c3 := (pumpsOf wn).foldl
    (fun acc pm => acc + lookupNearest pm pump_cost) c2
  (prvDiamsOf wn).foldl (fun acc d => acc + lookupNearest d prv_cost) c3

/-- Function `ghg_emissions` from `economic.py`: sum over pipe links of the
nearest table value at the pipe's diameter, times the pipe's length. -/
def ghg_emissions (wn : EconNetwork) (pipe_ghg : List (ℚ × ℚ)) : ℚ :=
  (pipesOf wn).foldl (fun acc p => acc + lookupNearest p.1 pipe_ghg * p.2) 0

theorem foldl_add_eq_sum {α : Type} (f : α → ℚ) (l : List α) (a : ℚ) :
    l.foldl (fun acc e => acc + f e) a = a + (l.map f).sum := by
  induction l generalizing a with
  | nil => simp
  | cons x xs ih => simp [ih, add_assoc]

theorem foldl_add_mul_eq_sum (f g : ℚ × ℚ → ℚ) (l : List (ℚ × ℚ)) (a : ℚ) :
    l.foldl (fun acc e => acc + f e * g e) a = a + (l.map fun e => f e * g e).sum := by
  induction l generalizing a with
  | nil => simp
  | cons x xs ih => simp [ih, add_assoc]

/-! ## Data model for `pump_energy` (`economic.py`) -/

/-- A pump as seen by `pump_energy`: name, endpoint node names,
optional efficiency-curve name, optional energy price, optional
energy-price pattern name. -/
structure PumpE where
  name : String
  start_node_name : String
  end_node_name : String
  efficiency : Option String
  energy_price : Option ℚ
  energy_pattern : Option String
  deriving DecidableEq, Repr

/-- Model of `wn.options.energy`: demand charge, global efficiency (percent),
global price, global price pattern. -/
structure EnergyOptions where
  demand_charge : Option ℚ
  global_efficiency : ℚ
  global_price : ℚ
  global_pattern : Option String
  deriving DecidableEq, Repr

/-- The network as consumed by `pump_energy`.  `energy_global_pattern`
models the legacy `wn.energy.global_pattern` attribute which the source
reads (line 309) in the branch where a pump has its own `energy_price`;
every other branch reads `wn.options.energy.global_pattern`. -/
structure EnergyNetwork where
  pumps : List PumpE
  options_energy : EnergyOptions
  energy_global_pattern : Option String

/-- Simulation results as consumed by `pump_energy`: the time index and
the `head` (per node name) and `flowrate` (per link name) tables. -/
structure SimResultsE where
  times : List ℕ
  nodeHead : String → ℕ → ℚ
  linkFlow : String → ℕ → ℚ

/-- The returned panel: `energy` and `cost` keyed by pump name and time. -/
structure PumpEnergyResults where
  energy : String → ℕ → ℚ
  cost : String → ℕ → ℚ

/-- The guard `wn.options.energy.demand_charge is not None and
wn.options.energy.demand_charge != 0` opening `pump_energy`. -/
def demandChargeInvalid (wn : EnergyNetwork) : Bool :=
  match wn.options_energy.demand_charge with
  | none => false
  | some c => c != 0

/-- The price-loop conditions of `pump_energy` that raise
`NotImplementedError('WNTR does not support price patterns yet.')` for a
given pump: an unpriced pump with a global pattern configured, a priced
pump when the legacy `wn.energy.global_pattern` is configured, or any
pump with its own `energy_pattern`. -/
def priceBranchError (wn : EnergyNetwork) (p : PumpE) : Bool :=
  match p.energy_price, p.energy_pattern with
  | none, none => wn.options_energy.global_pattern.isSome
  | some _, none => wn.energy_global_pattern.isSome
  | _, some _ => true

/-- Per-pump energy in the non-raising path: all pump efficiencies are
`None`, so each pump's efficiency is `global_efficiency/100` and
`energy = 1000 * 9.81 * headloss * flow / efficiency` with
`headloss = head(end node) - head(start node)`. -/
def energyOf (wn : EnergyNetwork) (res : SimResultsE) (pname : String)
    (t : ℕ) : ℚ :=
  match wn.pumps.find? (fun p => p.name = pname) with
  | none => 0
  | some p =>
    1000 * (981 / 100)
      * (res.nodeHead p.end_node_name t - res.nodeHead p.start_node_name t)
      * res.linkFlow pname t
      / (wn.options_energy.global_efficiency / 100)

/-- Per-pump price in the non-raising path: the pump's own
`energy_price` when set, otherwise the global price. -/
def priceOf (wn : EnergyNetwork) (pname : String) : ℚ :=
  match wn.pumps.find? (fun p => p.name = pname) with
  | none => 0
  | some p =>
    match p.energy_price with
    | some pr => pr
    | none => wn.options_energy.global_price

/-- Function `pump_energy` from `economic.py`.  Raises (returns `Except.error`)
in source order: the demand-charge `ValueError` first, then the
efficiency-curve `NotImplementedError` (efficiency loop), then the
price-pattern `NotImplementedError` (price loop); otherwise returns the
energy/cost panel. -/
def pump_energy (wn : EnergyNetwork) (res : SimResultsE) :
    Except String PumpEnergyResults :=
  if demandChargeInvalid wn then
    Except.error "WNTR does not support demand charge yet."
  else if wn.pumps.any (fun p => p.efficiency.isSome) then
    Except.error "WNTR does not support pump efficiency curves yet."
  else if wn.pumps.any (fun p => priceBranchError wn p) then
    Except.error "WNTR does not support price patterns yet."
  else
    Except.ok
      { energy := energyOf wn res
        cost := fun pname t => energyOf wn res pname t * priceOf wn pname }

/-! ## Claims C7–C10 -/

/-- Claim C7: For every network whose energy options specify a nonzero
demand charge, `pump_energy` fails with the demand-charge error
(`ValueError`, the spec's `InvalidOptions` class), and it does so
identically for every simulation-results argument: the check is the
first statement of the function and depends only on the configured
options, so it is reported before any of the energy computation. -/
theorem pump_energy_demand_charge_error (wn : EnergyNetwork) (c : ℚ)
    (hdc : wn.options_energy.demand_charge = some c) (hc : c ≠ 0) :
    ∀ res : SimResultsE,
      pump_energy wn res =
        Except.error "WNTR does not support demand charge yet." := by
  intro res
  have h : demandChargeInvalid wn = true := by
    unfold demandChargeInvalid
    rw [hdc]
    simpa using hc
  unfold pump_energy
  rw [h]
  rfl

/-- Closed witness for `pump_energy_demand_charge_error`. -/
theorem pump_energy_demand_charge_error_witness :
    pump_energy
      { pumps := [],
        options_energy :=
          { demand_charge := some 5, global_efficiency := 75,
            global_price := 0, global_pattern := none },
        energy_global_pattern := none }
      { times := [0], nodeHead := fun _ _ => 0, linkFlow := fun _ _ => 0 }
      = Except.error "WNTR does not support demand charge yet." :=
  pump_energy_demand_charge_error _ 5 rfl (by norm_num) _

/-- Claim C8: `cost` decomposes as the sum, over tanks, pipes, pumps and
PRV valves, of nearest-entry table values: a tank contributes the entry
nearest to its lookup volume `(diameter/2)^2 * (max_level - min_level)`
(no factor of `π`), a pipe the entry nearest to its diameter times its
length, a pump the entry nearest to its computed maximum power, a PRV
valve the entry nearest to its diameter; and every selected value is a
table entry achieving the smallest absolute index difference. -/
theorem cost_nearest_lookup (wn : EconNetwork)
    (tc pc vc uc : List (ℚ × ℚ))
    (htc : tc ≠ []) (hpc : pc ≠ []) (hvc : vc ≠ []) (huc : uc ≠ []) :
    (cost wn tc pc vc uc
      = (wn.tanks.map fun t =>
          lookupNearest ((t.diameter / 2) ^ 2 * (t.max_level - t.min_level))
            tc).sum
        + ((pipesOf wn).map fun p => lookupNearest p.1 pc * p.2).sum
        + ((pumpsOf wn).map fun pm => lookupNearest pm uc).sum
        + ((prvDiamsOf wn).map fun d => lookupNearest d vc).sum)
    ∧ (∀ t ∈ wn.tanks,
        isNearest tc ((t.diameter / 2) ^ 2 * (t.max_level - t.min_level))
          (lookupNearest ((t.diameter / 2) ^ 2 * (t.max_level - t.min_level))
            tc))
    ∧ (∀ p ∈ pipesOf wn, isNearest pc p.1 (lookupNearest p.1 pc))
    ∧ (∀ pm ∈ pumpsOf wn, isNearest uc pm (lookupNearest pm uc))
    ∧ (∀ d ∈ prvDiamsOf wn, isNearest vc d (lookupNearest d vc)) := by
  refine ⟨?_, ?_, ?_, ?_, ?_⟩
  · unfold cost
    simp only [foldl_add_eq_sum]
    ring
  · intro t _; exact lookupNearest_isNearest tc _ htc
  · intro p _; exact lookupNearest_isNearest pc _ hpc
  · intro pm _; exact lookupNearest_isNearest uc _ huc
  · intro d _; exact lookupNearest_isNearest vc _ hvc

/-- Concrete network for the `cost` and `ghg_emissions` witnesses: one
tank (lookup volume `(2/2)^2 * (5-0) = 5`), one pipe, one pump, one PRV
valve, and one non-PRV valve. -/
def econNet0 : EconNetwork :=
  { tanks := [⟨2, 0, 5⟩],
    links := [LinkE.pipe (4 * inchQ) 50, LinkE.pump 11310,
              LinkE.valve "PRV" (4 * inchQ), LinkE.valve "FCV" (4 * inchQ)] }

/-- Closed witness for `cost_nearest_lookup` at `econNet0` with the
default tables: the selected tank entry is nearest to volume `5`. -/
theorem cost_nearest_lookup_witness :
    isNearest default_tank_cost ((((2 : ℚ)) / 2) ^ 2 * (5 - 0))
      (lookupNearest ((((2 : ℚ)) / 2) ^ 2 * (5 - 0)) default_tank_cost) :=
  (cost_nearest_lookup econNet0 default_tank_cost default_pipe_cost
      default_prv_cost default_pump_cost
      (by decide) (by decide) (by decide) (by decide)).2.1
    ⟨2, 0, 5⟩ (by simp [econNet0])

/-- Claim C10: `ghg_emissions` is exactly the sum over pipe links of the
nearest-entry table value at the pipe's diameter times the pipe's
length; links other than pipes contribute nothing (the sum ranges only
over `pipesOf`, the pipes extracted from the link list), and a network
with no pipes yields `0`. -/
theorem ghg_emissions_nearest (wn : EconNetwork) (tg : List (ℚ × ℚ))
    (htg : tg ≠ []) :
    (ghg_emissions wn tg
      = ((pipesOf wn).map fun p => lookupNearest p.1 tg * p.2).sum)
    ∧ (∀ p ∈ pipesOf wn, isNearest tg p.1 (lookupNearest p.1 tg))
    ∧ (pipesOf wn = [] → ghg_emissions wn tg = 0) := by
  refine ⟨?_, ?_, ?_⟩
  · unfold ghg_emissions
    rw [foldl_add_mul_eq_sum (fun p => lookupNearest p.1 tg) (fun p => p.2)]
    ring
  · intro p _; exact lookupNearest_isNearest tg _ htg
  · intro h
    unfold ghg_emissions
    rw [h]
    rfl

/-- Closed witness for `ghg_emissions_nearest` at `econNet0` with the
default emissions table. -/
theorem ghg_emissions_nearest_witness :
    ghg_emissions econNet0 default_pipe_ghg
      = ((pipesOf econNet0).map
          fun p => lookupNearest p.1 default_pipe_ghg * p.2).sum :=
  (ghg_emissions_nearest econNet0 default_pipe_ghg (by decide)).1

/-- A member of a list of pumps with pairwise-distinct names is found
by name lookup. -/
theorem find?_pump_of_mem (l : List PumpE) (p : PumpE) (hp : p ∈ l)
    (hnames : l.Pairwise fun a b => a.name ≠ b.name) :
    l.find? (fun q => q.name = p.name) = some p := by
  induction l with
  | nil => cases hp
  | cons x xs ih =>
    rcases List.mem_cons.mp hp with h | h
    · subst h
      simp [List.find?]
    · have hx : x.name ≠ p.name :=
        (List.pairwise_cons.mp hnames).1 p h
      have hxb : (decide (x.name = p.name)) = false := by
        simpa using hx
      simp only [List.find?, hxb]
      exact ih h (List.pairwise_cons.mp hnames).2

/-- Claim C9: When every pump's efficiency curve, energy price and energy
pattern are unset and no global pattern is configured (and the demand
charge is absent or zero), `pump_energy` succeeds and reports, at each
time, `energy = 1000 * 9.81 * (head(end) - head(start)) * flow /
(global_efficiency/100)` and `cost = energy * global_price`; while any
pump with a non-`None` efficiency curve or an energy pattern makes
`pump_energy` fail with one of the two `NotImplementedError` messages
instead. -/
theorem pump_energy_global_formula (wn : EnergyNetwork) (res : SimResultsE)
    (hdc : wn.options_energy.demand_charge = none ∨
           wn.options_energy.demand_charge = some 0)
    (heff : ∀ p ∈ wn.pumps, p.efficiency = none)
    (hpat : ∀ p ∈ wn.pumps, p.energy_pattern = none)
    (hprice : ∀ p ∈ wn.pumps, p.energy_price = none)
    (hgp : wn.options_energy.global_pattern = none)
    (hnames : wn.pumps.Pairwise fun a b => a.name ≠ b.name) :
    (∃ out, pump_energy wn res = Except.ok out
      ∧ ∀ p ∈ wn.pumps, ∀ t : ℕ,
          out.energy p.name t
            = 1000 * (981 / 100)
              * (res.nodeHead p.end_node_name t
                  - res.nodeHead p.start_node_name t)
              * res.linkFlow p.name t
              / (wn.options_energy.global_efficiency / 100)
          ∧ out.cost p.name t
            = out.energy p.name t * wn.options_energy.global_price)
    ∧ (∀ (wn' : EnergyNetwork) (res' : SimResultsE),
        demandChargeInvalid wn' = false →
        (∃ p ∈ wn'.pumps, p.efficiency ≠ none ∨ p.energy_pattern ≠ none) →
        pump_energy wn' res'
          = Except.error "WNTR does not support pump efficiency curves yet."
        ∨ pump_energy wn' res'
          = Except.error "WNTR does not support price patterns yet.") := by
  constructor
  · have hdcb : demandChargeInvalid wn = false := by
      unfold demandChargeInvalid
      rcases hdc with h | h <;> simp [h]
    have heffb : wn.pumps.any (fun p => p.efficiency.isSome) = false := by
      rw [List.any_eq_false]
      intro p hp
      rw [heff p hp]
      simp
    have hpriceb : wn.pumps.any (fun p => priceBranchError wn p) = false := by
      rw [List.any_eq_false]
      intro p hp
      unfold priceBranchError
      rw [hprice p hp, hpat p hp, hgp]
      simp
    refine ⟨{ energy := energyOf wn res
              cost := fun pname t =>
                energyOf wn res pname t * priceOf wn pname }, ?_, ?_⟩
    · unfold pump_energy
      rw [hdcb, heffb, hpriceb]
      rfl
    · intro p hp t
      have hfind := find?_pump_of_mem wn.pumps p hp hnames
      constructor
      · show energyOf wn res p.name t = _
        unfold energyOf
        rw [hfind]
      · show energyOf wn res p.name t * priceOf wn p.name = _
        unfold priceOf
        rw [hfind]
        dsimp only
        rw [hprice p hp]
  · intro wn' res' hdc' hbad
    by_cases heffany : wn'.pumps.any (fun p => p.efficiency.isSome) = true
    · left
      unfold pump_energy
      rw [hdc', heffany]
      rfl
    · right
      have heffall : ∀ p ∈ wn'.pumps, p.efficiency = none := by
        intro p hp
        cases he : p.efficiency with
        | none => rfl
        | some v =>
          exact absurd (List.any_eq_true.mpr ⟨p, hp, by rw [he]; rfl⟩)
            heffany
      obtain ⟨p, hp, hor⟩ := hbad
      have hpatp : p.energy_pattern ≠ none := by
        rcases hor with h | h
        · exact absurd (heffall p hp) h
        · exact h
      have hpeb : priceBranchError wn' p = true := by
        obtain ⟨v, hv⟩ := Option.ne_none_iff_exists'.mp hpatp
        cases hpe : p.energy_price <;> simp [priceBranchError, hv, hpe]
      have hany : wn'.pumps.any (fun q => priceBranchError wn' q) = true :=
        List.any_eq_true.mpr ⟨p, hp, hpeb⟩
      have heffb : wn'.pumps.any (fun q => q.efficiency.isSome) = false := by
        rw [List.any_eq_false]
        intro q hq
        rw [heffall q hq]
        simp
      unfold pump_energy
      rw [hdc', heffb, hany]
      rfl

/-- Concrete network and results for the `pump_energy` formula witness. -/
def energyNet0 : EnergyNetwork :=
  { pumps := [{ name := "P1", start_node_name := "N1", end_node_name := "N2",
                efficiency := none, energy_price := none,
                energy_pattern := none }],
    options_energy :=
      { demand_charge := none, global_efficiency := 75,
        global_price := 361/10000000000, global_pattern := none },
    energy_global_pattern := none }

/-- Concrete simulation results for the `pump_energy` formula witness. -/
def simRes0 : SimResultsE :=
  { times := [0, 3600],
    nodeHead := fun n _ => if n = "N2" then 30 else 10,
    linkFlow := fun _ _ => 2 }

/-- Closed witness for `pump_energy_global_formula`. -/
theorem pump_energy_global_formula_witness :
    ∃ out, pump_energy energyNet0 simRes0 = Except.ok out
      ∧ ∀ p ∈ energyNet0.pumps, ∀ t : ℕ,
          out.energy p.name t
            = 1000 * (981 / 100)
              * (simRes0.nodeHead p.end_node_name t
                  - simRes0.nodeHead p.start_node_name t)
              * simRes0.linkFlow p.name t
              / (energyNet0.options_energy.global_efficiency / 100)
          ∧ out.cost p.name t
            = out.energy p.name t
              * energyNet0.options_energy.global_price :=
  (pump_energy_global_formula energyNet0 simRes0 (Or.inl rfl)
    (by intro p hp; simp [energyNet0] at hp; rw [hp])
    (by intro p hp; simp [energyNet0] at hp; rw [hp])
    (by intro p hp; simp [energyNet0] at hp; rw [hp])
    rfl (by simp [energyNet0])).1

/-! ## The hydraulic time-stepping engine

Modelled from the spec: the engine's own source is not part of the
excerpt (only its tests are), so the Network State, Equation Assembler
(mass-balance residuals), Nonlinear Solver (bounded iteration accepting
only iterates whose maximum residual is within tolerance), Control &
Event Evaluator (time-based events truncating the step) and
Time-Stepping Engine (§4.1–§4.5, §8) are defined here from the spec's
words.  The Newton update itself (damping, sparse linear solve) is an
abstract iteration function supplied in the `Engine` record; every
theorem below holds for all such functions. -/

/-- Modelled from the spec: a junction node (§3) with a base demand and
a referenced stepwise demand-pattern (time-indexed multiplier
sequence); an empty pattern means the base demand applies as is. -/
structure Junction where
  baseDemand : ℚ
  pattern : List ℚ
  patternStep : ℕ
  deriving DecidableEq, Repr, Inhabited

/-- Modelled from the spec: a tank node (§3) with initial level, min/max
operating levels and a (cylindrical) cross-sectional area used for the
explicit level integration of §4.5 step 4. -/
structure TankS where
  initLevel : ℚ
  min_level : ℚ
  max_level : ℚ
  area : ℚ
  deriving DecidableEq, Repr, Inhabited

/-- Modelled from the spec: a reservoir node (§3) with a fixed base head. -/
structure Reservoir where
  baseHead : ℚ
  deriving DecidableEq, Repr, Inhabited

/-- Modelled from the spec: a link (§3) with endpoint node references
(indices: junctions first, then tanks, then reservoirs) and an initial
status.  Flow is signed positive from `startNode` to `endNode`. -/
structure LinkS where
  startNode : ℕ
  endNode : ℕ
  initOpen : Bool
  deriving DecidableEq, Repr, Inhabited

/-- Modelled from the spec: a time-based control (§3): at simulated
time `time`, set link `link`'s status to `status`.  Simultaneous
controls apply in declaration order. -/
structure ControlS where
  time : ℕ
  link : ℕ
  status : Bool
  deriving DecidableEq, Repr, Inhabited

/-- Modelled from the spec: the fully-populated network object handed
to the engine (§6 input contract). -/
structure NetworkS where
  junctions : List Junction
  tanks : List TankS
  reservoirs : List Reservoir
  links : List LinkS
  controls : List ControlS
  deriving DecidableEq, Repr

/-- Modelled from the spec: the solver's unknown vector (§4.2): one
flow per link and one head per node. -/
structure Solution where
  flows : List ℚ
  heads : List ℚ
  deriving DecidableEq, Repr

/-- Modelled from the spec: `SimulationState` (§3), the complete
snapshot needed to pause/resume: simulated time, tank levels, link
statuses, and the last converged solution (the §4.3 warm start). -/
structure SimState where
  time : ℕ
  tankLevels : List ℚ
  linkStatus : List Bool
  lastSol : Solution
  deriving DecidableEq, Repr

/-- Modelled from the spec: one `ResultsAccumulator` row (§3): the
engine appends exactly one row per accepted step, holding the accepted
time and the committed per-link flows, per-node heads and tank levels. -/
structure Row where
  time : ℕ
  flows : List ℚ
  heads : List ℚ
  tankLevels : List ℚ
  deriving DecidableEq, Repr

/-- Modelled from the spec: run options (§6): hydraulic timestep,
solver tolerance, Newton iteration budget. -/
structure EngineOptions where
  hts : ℕ
  tol : ℚ
  maxIter : ℕ
  deriving DecidableEq, Repr

/-- Modelled from the spec: the simulator: the network, the run
options, and the Newton update map (damped Newton step with linear
solve, §4.3), abstracted as a time-indexed improvement function on
iterates. -/
structure Engine where
  net : NetworkS
  opts : EngineOptions
  improve : ℕ → Solution → Solution

/-- Demand of a junction at time `t`: base demand times the stepwise
pattern multiplier (§3 Pattern). -/
def demandAt (j : Junction) (t : ℕ) : ℚ :=
  match j.pattern with
  | [] => j.baseDemand
  | ps => j.baseDemand * ps.getD ((t / max 1 j.patternStep) % ps.length) 1

/-- Signed sum of incident link flows at node `nid`: inflow (links
ending at `nid`) minus outflow (links starting at `nid`). -/
def nodeNetInflow (links : List LinkS) (flows : List ℚ) (nid : ℕ) : ℚ :=
  ((links.zip flows).map fun lf =>
    (if lf.1.endNode = nid then lf.2 else 0)
      - (if lf.1.startNode = nid then lf.2 else 0)).sum

/-- Modelled from the spec: the mass-balance residual of junction `j`
at time `t` (§4.2): signed sum of incident link flows minus external
demand; must vanish at convergence. -/
def massResidual (net : NetworkS) (flows : List ℚ) (t : ℕ) (j : ℕ) : ℚ :=
  nodeNetInflow net.links flows j - demandAt (net.junctions.getD j default) t

/-- Maximum absolute mass-balance residual over the junctions: the
max-residual convergence measure of §4.3 (the energy residuals of the
full system are handled by the abstract Newton update; accepting a
solution additionally requires this mass measure within tolerance). -/
def maxResidual (net : NetworkS) (flows : List ℚ) (t : ℕ) : ℚ :=
  ((List.range net.junctions.length).map
    fun j => |massResidual net flows t j|).foldr max 0

/-- Modelled from the spec: the Nonlinear Solver (§4.3): bounded
iteration returning the first iterate whose max-residual is within
tolerance, else `ConvergenceFailure` (`none`); warm-started by the
caller from the prior converged state. -/
def newtonSolve (tol : ℚ) (resid : Solution → ℚ)
    (improve : Solution → Solution) : ℕ → Solution → Option Solution
  | 0, x => if resid x ≤ tol then some x else none
  | k + 1, x =>
    if resid x ≤ tol then some x
    else newtonSolve tol resid improve k (improve x)

/-- The scheduled event times strictly after `t` (§4.4): candidate
truncation boundaries for the next step. -/
def boundaryCandidates (net : NetworkS) (t : ℕ) : List ℕ :=
  net.controls.filterMap fun c => if t < c.time then some c.time else none

/-- The earliest scheduled event time strictly after `t`, if any. -/
def nextBoundary (net : NetworkS) (t : ℕ) : Option ℕ :=
  (boundaryCandidates net t).foldr
    (fun a acc =>
      match acc with
      | none => some a
      | some b => some (min a b)) none

/-- Modelled from the spec: the candidate step size (§4.5 step 1 and
§4.4): the hydraulic timestep, or shorter so the step lands exactly on
the earliest upcoming event boundary. -/
def stepSize (net : NetworkS) (hts : ℕ) (t : ℕ) : ℕ :=
  match nextBoundary net t with
  | none => hts
  | some e => min hts (e - t)

/-- Modelled from the spec: apply, in declaration order, every control
scheduled exactly at time `t` to the link status vector (§4.4, §3). -/
def applyControls (net : NetworkS) (t : ℕ) (st : List Bool) : List Bool :=
  net.controls.foldl
    (fun acc c => if c.time = t then acc.set c.link c.status else acc) st

/-- Modelled from the spec: explicit tank-level integration over the
accepted step (§4.5 step 4): each tank level advances by net inflow
times the step length over the tank area, clamped to the tank's
operating bounds. -/
def updateTanks (net : NetworkS) (levels flows : List ℚ) (dt : ℕ) :
    List ℚ :=
  (List.range net.tanks.length).map fun k =>
    let tk := net.tanks.getD k default
    let raw := levels.getD k 0
      + nodeNetInflow net.links flows (net.junctions.length + k) * (dt : ℚ)
          / tk.area
    max tk.min_level (min raw tk.max_level)

/-- Modelled from the spec: one step of the Time-Stepping Engine
(§4.5): determine the (possibly event-truncated) step size, solve the
nonlinear system at the new time warm-started from the last converged
solution, integrate and clamp tank levels, apply due controls, and
commit exactly one results row.  A zero step size (non-positive
timestep, §6) or solver failure aborts. -/
def step (E : Engine) (s : SimState) : Option (Row × SimState) :=
  let dt := stepSize E.net E.opts.hts s.time
  if dt = 0 then none
  else
    let t' := s.time + dt
    match newtonSolve E.opts.tol (fun x => maxResidual E.net x.flows t')
        (E.improve t') E.opts.maxIter s.lastSol with
    | none => none
    | some sol =>
      let levels' := updateTanks E.net s.tankLevels sol.flows dt
      some ({ time := t', flows := sol.flows, heads := sol.heads,
              tankLevels := levels' },
            { time := t', tankLevels := levels',
              linkStatus := applyControls E.net t' s.linkStatus,
              lastSol := sol })

/-- Modelled from the spec: the outer loop of §4.5, with explicit fuel
(each accepted step advances time by at least one second, so fuel
`D - s.time` always suffices; `run_sim` supplies it).  Returns the
final state and the append-only results rows, or `none` on a fatal
failure. -/
def runGo (E : Engine) (D : ℕ) : ℕ → SimState → Option (SimState × List Row)
  | fuel, s =>
    if D ≤ s.time then some (s, [])
    else
      match fuel with
      | 0 => none
      | f + 1 =>
        match step E s with
        | none => none
        | some (row, s') =>
          match runGo E D f s' with
          | none => none
          | some (sf, rows) => some (sf, row :: rows)

/-- Modelled from the spec: `run(options) -> Results` (§6) from an
explicit simulation state: advance the state until the simulated time
reaches the duration `D`, recording one row per accepted step. -/
def run_sim (E : Engine) (s : SimState) (D : ℕ) :
    Option (SimState × List Row) :=
  runGo E D D s

/-- Modelled from the spec: the initial simulation state: time zero,
tanks at their initial levels, links at their initial statuses, and the
solver's fixed initial guess (all-zero flows and heads). -/
def initState (net : NetworkS) : SimState :=
  { time := 0
    tankLevels := net.tanks.map (·.initLevel)
    linkStatus := net.links.map (·.initOpen)
    lastSol :=
      { flows := List.replicate net.links.length 0
        heads := List.replicate
          (net.junctions.length + net.tanks.length + net.reservoirs.length)
          0 } }

/-- Modelled from the spec: `reset_initial_values` (§4.5): restores the
original settings, statuses and tank levels — the initial simulation
state — without re-parsing the network. -/
def reset_initial_values (net : NetworkS) (_s : SimState) : SimState :=
  initState net

/-! ### Serialization of the simulation state (§4.5 pause/resume,
pickle round trip).  The opaque snapshot is a flat list of rationals:
the time, then each component as a length-prefixed block. -/

/-- Modelled from the spec: serialize the pause/resume snapshot into a
flat byte-stream-like list. -/
def serialize (s : SimState) : List ℚ :=
  (s.time : ℚ)
    :: (s.linkStatus.length : ℚ)
    :: (s.linkStatus.map (fun b => if b then (1 : ℚ) else 0)
        ++ (s.tankLevels.length : ℚ)
        :: (s.tankLevels
            ++ (s.lastSol.flows.length : ℚ)
            :: (s.lastSol.flows
                ++ (s.lastSol.heads.length : ℚ)
                :: s.lastSol.heads)))

/-- Read one length-prefixed block of rationals. -/
def decodeQList : List ℚ → Option (List ℚ × List ℚ)
  | [] => none
  | n :: rest =>
    let k := n.num.toNat
    if k ≤ rest.length then some (rest.take k, rest.drop k) else none

/-- Read one length-prefixed block of booleans (encoded as 0/1). -/
def decodeBList : List ℚ → Option (List Bool × List ℚ)
  | [] => none
  | n :: rest =>
    let k := n.num.toNat
    if k ≤ rest.length then
      some ((rest.take k).map (fun q => decide (q = 1)), rest.drop k)
    else none

/-- Modelled from the spec: deserialize a snapshot; fails on malformed
input, succeeds exactly on well-formed serialized states. -/
def deserialize (data : List ℚ) : Option SimState :=
  match data with
  | [] => none
  | t :: rest =>
    match decodeBList rest with
    | none => none
    | some (st, r1) =>
      match decodeQList r1 with
      | none => none
      | some (lv, r2) =>
        match decodeQList r2 with
        | none => none
        | some (fl, r3) =>
          match decodeQList r3 with
          | none => none
          | some (hd, r4) =>
            if r4 = [] then
              some { time := t.num.toNat, tankLevels := lv,
                     linkStatus := st,
                     lastSol := { flows := fl, heads := hd } }
            else none

theorem decodeQList_encode (l tail : List ℚ) :
    decodeQList ((l.length : ℚ) :: (l ++ tail)) = some (l, tail) := by
  have hk : ((l.length : ℚ)).num.toNat = l.length := by simp
  have hlen : l.length ≤ (l ++ tail).length := by simp
  simp [decodeQList, hk, hlen, List.take_left, List.drop_left]

theorem decodeQList_encode_end (l : List ℚ) :
    decodeQList ((l.length : ℚ) :: l) = some (l, []) := by
  have hk : ((l.length : ℚ)).num.toNat = l.length := by simp
  simp [decodeQList, hk, List.take_length, List.drop_length]

theorem decodeBList_encode (st : List Bool) (tail : List ℚ) :
    decodeBList ((st.length : ℚ)
        :: (st.map (fun b => if b then (1 : ℚ) else 0) ++ tail))
      = some (st, tail) := by
  have hk : ((st.length : ℚ)).num.toNat = st.length := by simp
  have hlen :
      st.length ≤ (st.map (fun b => if b then (1 : ℚ) else 0) ++ tail).length := by
    simp
  have hmap :
      ((st.map (fun b => if b then (1 : ℚ) else 0) ++ tail).take
        st.length).map (fun q => decide (q = 1)) = st := by
    rw [show st.length = (st.map (fun b => if b then (1 : ℚ) else 0)).length
          from (List.length_map _ _).symm,
        List.take_left, List.map_map]
    have hcomp :
        ((fun q => decide (q = (1 : ℚ)))
          ∘ fun b => if b then (1 : ℚ) else 0) = id := by
      funext b
      cases b <;> simp
    rw [hcomp, List.map_id]
  have hdrop :
      (st.map (fun b => if b then (1 : ℚ) else 0) ++ tail).drop st.length
        = tail := by
    rw [show st.length = (st.map (fun b => if b then (1 : ℚ) else 0)).length
          from (List.length_map _ _).symm,
        List.drop_left]
  simp only [decodeBList, hk, hlen, if_pos, hmap, hdrop]

/-- The serialize/deserialize round trip is lossless on every
simulation state. -/
theorem deserialize_serialize (s : SimState) :
    deserialize (serialize s) = some s := by
  have htime : ((s.time : ℚ)).num.toNat = s.time := by simp
  rw [serialize]
  simp only [deserialize, decodeBList_encode, decodeQList_encode,
    decodeQList_encode_end, htime]
  rfl

/-! ### Lemmas about the solver, the step, and the outer loop -/

/-- A solution accepted by the Nonlinear Solver satisfies the
convergence criterion: its residual measure is within tolerance. -/
theorem newtonSolve_resid_le (tol : ℚ) (resid : Solution → ℚ)
    (improve : Solution → Solution) :
    ∀ (k : ℕ) (x y : Solution),
      newtonSolve tol resid improve k x = some y → resid y ≤ tol := by
  intro k
  induction k with
  | zero =>
    intro x y h
    simp only [newtonSolve] at h
    by_cases hc : resid x ≤ tol
    · rw [if_pos hc] at h
      obtain rfl := Option.some.inj h
      exact hc
    · rw [if_neg hc] at h
      cases h
  | succ k ih =>
    intro x y h
    simp only [newtonSolve] at h
    by_cases hc : resid x ≤ tol
    · rw [if_pos hc] at h
      obtain rfl := Option.some.inj h
      exact hc
    · rw [if_neg hc] at h
      exact ih _ y h

theorem foldrMin_mem :
    ∀ (l : List ℕ) (e : ℕ),
      l.foldr
        (fun a acc =>
          match acc with
          | none => some a
          | some b => some (min a b)) none = some e → e ∈ l := by
  intro l
  induction l with
  | nil => intro e h; cases h
  | cons a l ih =>
    intro e h
    simp only [List.foldr] at h
    cases hf : l.foldr
        (fun a acc =>
          match acc with
          | none => some a
          | some b => some (min a b)) none with
    | none =>
      rw [hf] at h
      obtain rfl := Option.some.inj h
      exact List.mem_cons_self _ _
    | some b =>
      rw [hf] at h
      obtain rfl := Option.some.inj h
      rcases min_choice a b with hm | hm
      · rw [hm]; exact List.mem_cons_self _ _
      · rw [hm]; exact List.mem_cons_of_mem a (ih b hf)

/-- The next boundary is a scheduled control time strictly after `t`. -/
theorem nextBoundary_mem (net : NetworkS) (t e : ℕ)
    (h : nextBoundary net t = some e) :
    t < e ∧ e ∈ net.controls.map ControlS.time := by
  have hm : e ∈ boundaryCandidates net t := foldrMin_mem _ e h
  unfold boundaryCandidates at hm
  obtain ⟨c, hc, hce⟩ := List.mem_filterMap.mp hm
  by_cases hlt : t < c.time
  · rw [if_pos hlt] at hce
    obtain rfl := Option.some.inj hce
    exact ⟨hlt, List.mem_map.mpr ⟨c, hc, rfl⟩⟩
  · rw [if_neg hlt] at hce
    cases hce

theorem stepSize_le (net : NetworkS) (hts t : ℕ) :
    stepSize net hts t ≤ hts := by
  unfold stepSize
  cases nextBoundary net t with
  | none => exact le_refl _
  | some e => exact min_le_left _ _

/-- A step shorter than the hydraulic timestep lands exactly on a
scheduled control time (the event-truncated step of §4.4). -/
theorem stepSize_event (net : NetworkS) (hts t : ℕ)
    (h : stepSize net hts t < hts) :
    t + stepSize net hts t ∈ net.controls.map ControlS.time := by
  unfold stepSize at h ⊢
  cases hb : nextBoundary net t with
  | none =>
    rw [hb] at h
    exact absurd h (lt_irrefl hts)
  | some e =>
    rw [hb] at h
    dsimp only at h ⊢
    obtain ⟨hte, hmem⟩ := nextBoundary_mem net t e hb
    have hmin : min hts (e - t) = e - t := by
      rcases min_choice hts (e - t) with hm | hm
      · rw [hm] at h; exact absurd h (lt_irrefl hts)
      · exact hm
    rw [hmin, Nat.add_sub_cancel' (le_of_lt hte)]
    exact hmem

/-- Elimination principle for one accepted engine step: the committed
time is the old time advanced by the (nonzero) step size, the row holds
a solver-accepted solution, tank levels are the clamped integration,
and due controls are applied. -/
theorem step_elim (E : Engine) (s : SimState) (row : Row) (s' : SimState)
    (h : step E s = some (row, s')) :
    stepSize E.net E.opts.hts s.time ≠ 0 ∧
    s'.time = s.time + stepSize E.net E.opts.hts s.time ∧
    row.time = s'.time ∧
    ∃ sol,
      newtonSolve E.opts.tol (fun x => maxResidual E.net x.flows s'.time)
          (E.improve s'.time) E.opts.maxIter s.lastSol = some sol ∧
      row.flows = sol.flows ∧ row.heads = sol.heads ∧
      row.tankLevels
        = updateTanks E.net s.tankLevels sol.flows
            (stepSize E.net E.opts.hts s.time) ∧
      s'.tankLevels = row.tankLevels ∧
      s'.linkStatus = applyControls E.net s'.time s.linkStatus ∧
      s'.lastSol = sol := by
  unfold step at h
  by_cases hdt : stepSize E.net E.opts.hts s.time = 0
  · rw [if_pos hdt] at h
    cases h
  · rw [if_neg hdt] at h
    simp only at h
    cases hn : newtonSolve E.opts.tol
        (fun x => maxResidual E.net x.flows
          (s.time + stepSize E.net E.opts.hts s.time))
        (E.improve (s.time + stepSize E.net E.opts.hts s.time))
        E.opts.maxIter s.lastSol with
    | none =>
      rw [hn] at h
      cases h
    | some sol =>
      rw [hn] at h
      obtain ⟨h1, h2⟩ := Prod.mk.injEq .. ▸ Option.some.inj h
      subst h1
      subst h2
      exact ⟨hdt, rfl, rfl, sol, hn, rfl, rfl, rfl, rfl, rfl, rfl⟩

/-- Each accepted step advances simulated time. -/
theorem step_time_lt (E : Engine) (s : SimState) (row : Row)
    (s' : SimState) (h : step E s = some (row, s')) : s.time < s'.time := by
  obtain ⟨hdt, ht, -⟩ := step_elim E s row s' h
  rw [ht]
  exact Nat.lt_add_of_pos_right (Nat.pos_of_ne_zero hdt)

theorem runGo_stop (E : Engine) (D f : ℕ) (s : SimState)
    (h : D ≤ s.time) : runGo E D f s = some (s, []) := by
  cases f <;> simp [runGo, h]

theorem runGo_succ (E : Engine) (D f : ℕ) (s : SimState)
    (h : ¬ D ≤ s.time) :
    runGo E D (f + 1) s
      = (step E s).bind fun rs =>
          (runGo E D f rs.2).map fun p => (p.1, rs.1 :: p.2) := by
  conv_lhs => rw [runGo]
  rw [if_neg h]
  cases hs : step E s with
  | none => rfl
  | some rs =>
    obtain ⟨row, s'⟩ := rs
    cases hr : runGo E D f s' <;> simp [hr]

theorem runGo_zero_fail (E : Engine) (D : ℕ) (s : SimState)
    (h : ¬ D ≤ s.time) : runGo E D 0 s = none := by
  simp [runGo, h]

/-- Simulated time never decreases along a run. -/
theorem runGo_time_mono (E : Engine) (D : ℕ) :
    ∀ (f : ℕ) (s sf : SimState) (rows : List Row),
      runGo E D f s = some (sf, rows) → s.time ≤ sf.time := by
  intro f
  induction f with
  | zero =>
    intro s sf rows h
    by_cases hD : D ≤ s.time
    · rw [runGo_stop E D 0 s hD] at h
      obtain ⟨h1, -⟩ := Prod.mk.injEq .. ▸ Option.some.inj h
      exact h1 ▸ le_refl _
    · rw [runGo_zero_fail E D s hD] at h
      cases h
  | succ f ih =>
    intro s sf rows h
    by_cases hD : D ≤ s.time
    · rw [runGo_stop E D (f + 1) s hD] at h
      obtain ⟨h1, -⟩ := Prod.mk.injEq .. ▸ Option.some.inj h
      exact h1 ▸ le_refl _
    · rw [runGo_succ E D f s hD] at h
      cases hs : step E s with
      | none => rw [hs] at h; cases h
      | some rs =>
        obtain ⟨row, s'⟩ := rs
        rw [hs] at h
        simp only [Option.some_bind] at h
        cases hr : runGo E D f s' with
        | none => rw [hr] at h; cases h
        | some p =>
          obtain ⟨sf', rows'⟩ := p
          rw [hr] at h
          simp only [Option.map_some'] at h
          obtain ⟨h1, -⟩ := Prod.mk.injEq .. ▸ Option.some.inj h
          calc s.time ≤ s'.time := le_of_lt (step_time_lt E s row s' hs)
            _ ≤ sf'.time := ih s' sf' rows' hr
            _ = sf.time := by rw [h1]

/-- The run result does not depend on the fuel, once the fuel covers
the remaining duration (each step consumes at least one second). -/
theorem runGo_fuel_irrel (E : Engine) (D : ℕ) :
    ∀ (f1 : ℕ) (s : SimState), D - s.time ≤ f1 →
      ∀ (f2 : ℕ), D - s.time ≤ f2 → runGo E D f1 s = runGo E D f2 s := by
  intro f1
  induction f1 with
  | zero =>
    intro s h1 f2 h2
    have hD : D ≤ s.time := by omega
    rw [runGo_stop E D 0 s hD, runGo_stop E D f2 s hD]
  | succ f1 ih =>
    intro s h1 f2 h2
    by_cases hD : D ≤ s.time
    · rw [runGo_stop E D (f1 + 1) s hD, runGo_stop E D f2 s hD]
    · cases f2 with
      | zero => omega
      | succ f2 =>
        rw [runGo_succ E D f1 s hD, runGo_succ E D f2 s hD]
        cases hs : step E s with
        | none => rfl
        | some rs =>
          obtain ⟨row, s'⟩ := rs
          have htl := step_time_lt E s row s' hs
          simp only [Option.some_bind]
          rw [ih s' (by omega) f2 (by omega)]

/-- Splitting a run at an intermediate duration: running to `D` equals
running to `D1 ≤ D` and continuing the resulting state to `D`, with the
results rows concatenated (at the `runGo` level, with shared fuel). -/
theorem runGo_split (E : Engine) (D1 D : ℕ) (hle : D1 ≤ D) :
    ∀ (f : ℕ) (s : SimState), D - s.time ≤ f →
      runGo E D f s
        = (runGo E D1 f s).bind fun p =>
            (runGo E D f p.1).map fun q => (q.1, p.2 ++ q.2) := by
  intro f
  induction f with
  | zero =>
    intro s h
    have hD : D ≤ s.time := by omega
    have hD1 : D1 ≤ s.time := le_trans hle hD
    rw [runGo_stop E D 0 s hD, runGo_stop E D1 0 s hD1]
    simp only [Option.some_bind]
    rw [runGo_stop E D 0 s hD]
    rfl
  | succ f ih =>
    intro s h
    by_cases hD1 : D1 ≤ s.time
    · rw [runGo_stop E D1 (f + 1) s hD1]
      simp only [Option.some_bind]
      cases hr : runGo E D (f + 1) s with
      | none => rfl
      | some p =>
        obtain ⟨sf, rows⟩ := p
        simp
    · have hDs : ¬ D ≤ s.time := by omega
      rw [runGo_succ E D f s hDs, runGo_succ E D1 f s hD1]
      cases hs : step E s with
      | none => rfl
      | some rs =>
        obtain ⟨row, s'⟩ := rs
        have htl := step_time_lt E s row s' hs
        simp only [Option.some_bind]
        rw [ih s' (by omega)]
        cases hr1 : runGo E D1 f s' with
        | none => rfl
        | some p =>
          obtain ⟨s1, r1⟩ := p
          have hs1 : s'.time ≤ s1.time :=
            runGo_time_mono E D1 f s' s1 r1 hr1
          have hfi : runGo E D (f + 1) s1 = runGo E D f s1 :=
            runGo_fuel_irrel E D (f + 1) s1 (by omega) f (by omega)
          simp only [Option.some_bind, Option.map_some', hfi]
          cases hr2 : runGo E D f s1 with
          | none => rfl
          | some q =>
            obtain ⟨s2, r2⟩ := q
            simp

/-- Splitting `run_sim` at an intermediate duration `D1 ≤ D`:
the uninterrupted run to `D` is the run to `D1` followed by the
continuation of the returned state to `D`, rows concatenated. -/
theorem run_sim_split (E : Engine) (s : SimState) (D1 D : ℕ)
    (h : D1 ≤ D) :
    run_sim E s D
      = (run_sim E s D1).bind fun p =>
          (run_sim E p.1 D).map fun q => (q.1, p.2 ++ q.2) := by
  unfold run_sim
  rw [runGo_split E D1 D h D s (Nat.sub_le D s.time)]
  rw [runGo_fuel_irrel E D1 D s (by omega) D1 (by omega)]

/-! ## Claims C1–C6 -/

/-- Claim C1: Pause/resume equivalence: for every network (any engine,
any start state) and durations `D1 < D`, the uninterrupted run to `D`
returns exactly the run to the intermediate duration `D1` followed by
resuming the same simulator state and continuing to `D`, with the
results rows (every node and link column at every time) concatenated —
exact equality, hence agreement within any tolerance such as `1e-7`. -/
theorem run_sim_pause_resume (E : Engine) (s : SimState) (D1 D : ℕ)
    (h : D1 < D) :
    run_sim E s D
      = (run_sim E s D1).bind fun p =>
          (run_sim E p.1 D).map fun q => (q.1, p.2 ++ q.2) :=
  run_sim_split E s D1 D (le_of_lt h)

/-- A one-junction network with no links: the mass residual vanishes,
so any Newton update converges on the first check. -/
def net0 : NetworkS :=
  { junctions := [{ baseDemand := 0, pattern := [], patternStep := 3600 }],
    tanks := [], reservoirs := [], links := [], controls := [] }

/-- Concrete engine over `net0`: unit timestep, zero tolerance,
identity Newton update. -/
def engine0 : Engine :=
  { net := net0, opts := { hts := 1, tol := 0, maxIter := 5 },
    improve := fun _ x => x }

/-- Closed witness for `run_sim_pause_resume`: split a 2-second run of
the concrete engine at 1 second. -/
theorem run_sim_pause_resume_witness :
    run_sim engine0 (initState net0) 2
      = (run_sim engine0 (initState net0) 1).bind fun p =>
          (run_sim engine0 p.1 2).map fun q => (q.1, p.2 ++ q.2) :=
  run_sim_pause_resume engine0 (initState net0) 1 2 (by decide)

/-- Final state of the 2-second reference run of `engine0`. -/
def engine0_sf : SimState :=
  { time := 2, tankLevels := [], linkStatus := [],
    lastSol := { flows := [], heads := [0] } }

/-- First results row of the 2-second reference run of `engine0`. -/
def engine0_row1 : Row :=
  { time := 1, flows := [], heads := [0], tankLevels := [] }

/-- Second results row of the 2-second reference run of `engine0`. -/
def engine0_row2 : Row :=
  { time := 2, flows := [], heads := [0], tankLevels := [] }

/-- Concrete evaluation of the 2-second reference run of `engine0`. -/
theorem engine0_run2 :
    run_sim engine0 (initState net0) 2
      = some (engine0_sf, [engine0_row1, engine0_row2]) := by
  norm_num [run_sim, runGo, step, stepSize, nextBoundary, boundaryCandidates,
    newtonSolve, maxResidual, massResidual, demandAt, nodeNetInflow,
    updateTanks, applyControls, initState, net0, engine0, List.range_succ,
    engine0_sf, engine0_row1, engine0_row2]

/-- Claim C2: Idempotence of reset: if running the engine from the
initial conditions to duration `D` produced results, then calling
`reset_initial_values` (on the post-run state) and running again to `D`
reproduces exactly the same final state and results rows — identical
values for every node and link attribute at every recorded time, hence
within `1e-7`. -/
theorem reset_initial_values_rerun (E : Engine) (D : ℕ) (sf : SimState)
    (rows : List Row)
    (h : run_sim E (initState E.net) D = some (sf, rows)) :
    run_sim E (reset_initial_values E.net sf) D = some (sf, rows) := by
  unfold reset_initial_values
  exact h

/-- Closed witness for `reset_initial_values_rerun` on the concrete
2-second run of `engine0`. -/
theorem reset_initial_values_rerun_witness :
    run_sim engine0 (reset_initial_values engine0.net engine0_sf) 2
      = some (engine0_sf, [engine0_row1, engine0_row2]) :=
  reset_initial_values_rerun engine0 2 engine0_sf
    [engine0_row1, engine0_row2] engine0_run2

/-- Claim C3: Serialize/deserialize round trip: running to `D1`,
serializing the simulation state, deserializing it, and continuing the
run to a later duration `D` reproduces exactly (hence within any
tolerance) the whole trajectory of the single uninterrupted run to `D`
— every node and link attribute at every recorded time. -/
theorem pickle_resume_equiv (E : Engine) (s : SimState) (D1 D : ℕ)
    (h : D1 < D) :
    (run_sim E s D1).bind (fun p =>
        (deserialize (serialize p.1)).bind fun s1 =>
          (run_sim E s1 D).map fun q => (q.1, p.2 ++ q.2))
      = run_sim E s D := by
  rw [run_sim_split E s D1 D (le_of_lt h)]
  cases hr : run_sim E s D1 with
  | none => rfl
  | some p => simp [deserialize_serialize]

/-- Closed witness for `pickle_resume_equiv`: serialize the concrete
engine's state after 1 second and continue to 2 seconds. -/
theorem pickle_resume_equiv_witness :
    (run_sim engine0 (initState net0) 1).bind (fun p =>
        (deserialize (serialize p.1)).bind fun s1 =>
          (run_sim engine0 s1 2).map fun q => (q.1, p.2 ++ q.2))
      = run_sim engine0 (initState net0) 2 :=
  pickle_resume_equiv engine0 (initState net0) 1 2 (by decide)

theorem le_foldr_max (l : List ℚ) (x : ℚ) (hx : x ∈ l) :
    x ≤ l.foldr max 0 := by
  induction l with
  | nil => cases hx
  | cons a l ih =>
    rcases List.mem_cons.mp hx with h | h
    · rw [h]; exact le_max_left _ _
    · exact le_trans (ih h) (le_max_right _ _)

/-- Every committed results row holds a solver-accepted solution: its
maximum mass residual at the row's time is within tolerance. -/
theorem runGo_rows_resid (E : Engine) (D : ℕ) :
    ∀ (f : ℕ) (s sf : SimState) (rows : List Row),
      runGo E D f s = some (sf, rows) →
      ∀ row ∈ rows, maxResidual E.net row.flows row.time ≤ E.opts.tol := by
  intro f
  induction f with
  | zero =>
    intro s sf rows h row hrow
    by_cases hD : D ≤ s.time
    · rw [runGo_stop E D 0 s hD] at h
      obtain ⟨-, h2⟩ := Prod.mk.injEq .. ▸ Option.some.inj h
      rw [← h2] at hrow
      cases hrow
    · rw [runGo_zero_fail E D s hD] at h
      cases h
  | succ f ih =>
    intro s sf rows h row hrow
    by_cases hD : D ≤ s.time
    · rw [runGo_stop E D (f + 1) s hD] at h
      obtain ⟨-, h2⟩ := Prod.mk.injEq .. ▸ Option.some.inj h
      rw [← h2] at hrow
      cases hrow
    · rw [runGo_succ E D f s hD] at h
      cases hs : step E s with
      | none => rw [hs] at h; cases h
      | some rs =>
        obtain ⟨row0, s'⟩ := rs
        rw [hs] at h
        simp only [Option.some_bind] at h
        cases hr : runGo E D f s' with
        | none => rw [hr] at h; cases h
        | some p =>
          obtain ⟨sf', rows'⟩ := p
          rw [hr] at h
          simp only [Option.map_some'] at h
          obtain ⟨-, h2⟩ := Prod.mk.injEq .. ▸ Option.some.inj h
          rw [← h2] at hrow
          rcases List.mem_cons.mp hrow with hcase | hcase
          · obtain ⟨-, -, hrt, sol, hn, hfl, -, -, -, -, -⟩ :=
              step_elim E s row0 s' hs
            have hres := newtonSolve_resid_le _ _ _ _ _ _ hn
            rw [hcase, hrt, hfl]
            exact hres
          · exact ih s' sf' rows' hr row hcase

/-- Claim C4: Mass conservation: at every accepted step (every committed
results row) and for every junction (non-tank node), the signed sum of
the flows on incident links differs from the junction's external demand
at that time by at most the solver tolerance. -/
theorem mass_conservation (E : Engine) (s0 : SimState) (D : ℕ)
    (sf : SimState) (rows : List Row)
    (h : run_sim E s0 D = some (sf, rows))
    (row : Row) (hrow : row ∈ rows)
    (j : ℕ) (hj : j < E.net.junctions.length) :
    |massResidual E.net row.flows row.time j| ≤ E.opts.tol := by
  have hmax := runGo_rows_resid E D D s0 sf rows h row hrow
  have hmem : |massResidual E.net row.flows row.time j|
      ∈ (List.range E.net.junctions.length).map
          fun i => |massResidual E.net row.flows row.time i| :=
    List.mem_map_of_mem _ (List.mem_range.mpr hj)
  exact le_trans (le_foldr_max _ _ hmem) hmax

/-- Closed witness for `mass_conservation`: the first row of the
concrete 2-second run of `engine0`, at its single junction. -/
theorem mass_conservation_witness :
    |massResidual engine0.net engine0_row1.flows engine0_row1.time 0|
      ≤ engine0.opts.tol :=
  mass_conservation engine0 (initState net0) 2 engine0_sf
    [engine0_row1, engine0_row2] engine0_run2 engine0_row1
    (by simp) 0 (by decide)

/-- The `k`-th committed tank level is the clamped integration value. -/
theorem updateTanks_getD (net : NetworkS) (levels flows : List ℚ)
    (dt k : ℕ) (hk : k < net.tanks.length) :
    (updateTanks net levels flows dt).getD k 0
      = max (net.tanks.getD k default).min_level
          (min (levels.getD k 0
              + nodeNetInflow net.links flows (net.junctions.length + k)
                  * (dt : ℚ) / (net.tanks.getD k default).area)
            (net.tanks.getD k default).max_level) := by
  unfold updateTanks
  rw [List.getD_eq_getElem?_getD, List.getElem?_map, List.getElem?_range hk]
  rfl

/-- Every committed results row's tank levels come from the clamped
tank integration of some step. -/
theorem runGo_rows_tanks (E : Engine) (D : ℕ) :
    ∀ (f : ℕ) (s sf : SimState) (rows : List Row),
      runGo E D f s = some (sf, rows) →
      ∀ row ∈ rows, ∃ levels flows dt,
        row.tankLevels = updateTanks E.net levels flows dt := by
  intro f
  induction f with
  | zero =>
    intro s sf rows h row hrow
    by_cases hD : D ≤ s.time
    · rw [runGo_stop E D 0 s hD] at h
      obtain ⟨-, h2⟩ := Prod.mk.injEq .. ▸ Option.some.inj h
      rw [← h2] at hrow
      cases hrow
    · rw [runGo_zero_fail E D s hD] at h
      cases h
  | succ f ih =>
    intro s sf rows h row hrow
    by_cases hD : D ≤ s.time
    · rw [runGo_stop E D (f + 1) s hD] at h
      obtain ⟨-, h2⟩ := Prod.mk.injEq .. ▸ Option.some.inj h
      rw [← h2] at hrow
      cases hrow
    · rw [runGo_succ E D f s hD] at h
      cases hs : step E s with
      | none => rw [hs] at h; cases h
      | some rs =>
        obtain ⟨row0, s'⟩ := rs
        rw [hs] at h
        simp only [Option.some_bind] at h
        cases hr : runGo E D f s' with
        | none => rw [hr] at h; cases h
        | some p =>
          obtain ⟨sf', rows'⟩ := p
          rw [hr] at h
          simp only [Option.map_some'] at h
          obtain ⟨-, h2⟩ := Prod.mk.injEq .. ▸ Option.some.inj h
          rw [← h2] at hrow
          rcases List.mem_cons.mp hrow with hcase | hcase
          · obtain ⟨-, -, -, sol, -, -, -, htk, -, -, -⟩ :=
              step_elim E s row0 s' hs
            exact ⟨s.tankLevels, sol.flows,
              stepSize E.net E.opts.hts s.time, hcase ▸ htk⟩
          · exact ih s' sf' rows' hr row hcase

/-- Claim C5: Boundary clamping: in every committed results row, every
tank's reported level lies within its operating bounds — in particular
it never exceeds `max_level`, however large the net inflow over the
step: the engine clamps the integrated level before committing. -/
theorem tank_level_within_bounds (E : Engine) (s0 : SimState) (D : ℕ)
    (sf : SimState) (rows : List Row)
    (h : run_sim E s0 D = some (sf, rows))
    (row : Row) (hrow : row ∈ rows)
    (k : ℕ) (hk : k < E.net.tanks.length)
    (hwf : (E.net.tanks.getD k default).min_level
            ≤ (E.net.tanks.getD k default).max_level) :
    row.tankLevels.getD k 0 ≤ (E.net.tanks.getD k default).max_level
    ∧ (E.net.tanks.getD k default).min_level ≤ row.tankLevels.getD k 0 := by
  obtain ⟨levels, flows, dt, heq⟩ :=
    runGo_rows_tanks E D D s0 sf rows h row hrow
  rw [heq, updateTanks_getD E.net levels flows dt k hk]
  exact ⟨max_le hwf (min_le_right _ _), le_max_left _ _⟩

/-- A one-tank network (initial level 3, bounds [0, 5], unit area),
with no links: the tank holds its level. -/
def netT : NetworkS :=
  { junctions := [],
    tanks := [{ initLevel := 3, min_level := 0, max_level := 5, area := 1 }],
    reservoirs := [], links := [], controls := [] }

/-- Concrete engine over `netT`. -/
def engineT : Engine :=
  { net := netT, opts := { hts := 1, tol := 0, maxIter := 0 },
    improve := fun _ x => x }

/-- The single results row of the 1-second run of `engineT`. -/
def rowT : Row := { time := 1, flows := [], heads := [0], tankLevels := [3] }

/-- Final state of the 1-second run of `engineT`. -/
def sfT : SimState :=
  { time := 1, tankLevels := [3], linkStatus := [],
    lastSol := { flows := [], heads := [0] } }

/-- Concrete evaluation of the 1-second run of `engineT`. -/
theorem engineT_run1 :
    run_sim engineT (initState netT) 1 = some (sfT, [rowT]) := by
  norm_num [run_sim, runGo, step, stepSize, nextBoundary, boundaryCandidates,
    newtonSolve, maxResidual, massResidual, demandAt, nodeNetInflow,
    updateTanks, applyControls, initState, netT, engineT, List.range_succ,
    sfT, rowT, min_def, max_def]

/-- Closed witness for `tank_level_within_bounds` on the concrete
one-tank run. -/
theorem tank_level_within_bounds_witness :
    rowT.tankLevels.getD 0 0 ≤ (engineT.net.tanks.getD 0 default).max_level
    ∧ (engineT.net.tanks.getD 0 default).min_level
        ≤ rowT.tankLevels.getD 0 0 :=
  tank_level_within_bounds engineT (initState netT) 1 sfT [rowT]
    engineT_run1 rowT (by simp) 0 (by decide) (by norm_num [engineT, netT])

/-- The times of the committed rows, prefixed with the start time, form
a chain: strictly increasing, each increment being the configured
hydraulic timestep or an event-truncated step landing exactly on a
scheduled control time. -/
theorem runGo_times_chain (E : Engine) (D : ℕ) :
    ∀ (f : ℕ) (s sf : SimState) (rows : List Row),
      runGo E D f s = some (sf, rows) →
      List.Chain'
        (fun a b => a < b ∧
          (b - a = E.opts.hts ∨
            (b - a < E.opts.hts ∧ b ∈ E.net.controls.map ControlS.time)))
        (s.time :: rows.map Row.time) := by
  intro f
  induction f with
  | zero =>
    intro s sf rows h
    by_cases hD : D ≤ s.time
    · rw [runGo_stop E D 0 s hD] at h
      obtain ⟨-, h2⟩ := Prod.mk.injEq .. ▸ Option.some.inj h
      rw [← h2]
      exact List.chain'_singleton _
    · rw [runGo_zero_fail E D s hD] at h
      cases h
  | succ f ih =>
    intro s sf rows h
    by_cases hD : D ≤ s.time
    · rw [runGo_stop E D (f + 1) s hD] at h
      obtain ⟨-, h2⟩ := Prod.mk.injEq .. ▸ Option.some.inj h
      rw [← h2]
      exact List.chain'_singleton _
    · rw [runGo_succ E D f s hD] at h
      cases hs : step E s with
      | none => rw [hs] at h; cases h
      | some rs =>
        obtain ⟨row0, s'⟩ := rs
        rw [hs] at h
        simp only [Option.some_bind] at h
        cases hr : runGo E D f s' with
        | none => rw [hr] at h; cases h
        | some p =>
          obtain ⟨sf', rows'⟩ := p
          rw [hr] at h
          simp only [Option.map_some'] at h
          obtain ⟨-, h2⟩ := Prod.mk.injEq .. ▸ Option.some.inj h
          rw [← h2]
          obtain ⟨hdt, hst, hrt, -⟩ := step_elim E s row0 s' hs
          have hchain := ih s' sf' rows' hr
          rw [List.map_cons, List.chain'_cons]
          constructor
          · rw [hrt, hst]
            refine ⟨Nat.lt_add_of_pos_right (Nat.pos_of_ne_zero hdt), ?_⟩
            rw [Nat.add_sub_cancel_left]
            rcases lt_or_eq_of_le (stepSize_le E.net E.opts.hts s.time)
              with hlt | heq
            · exact Or.inr ⟨hlt, stepSize_event E.net E.opts.hts s.time hlt⟩
            · exact Or.inl heq
          · rw [hrt]
            exact hchain

/-- Claim C6: Monotonic time index: prefixed with the start time, the
results time index is strictly increasing — no gaps, no duplicates, one
entry per accepted step by construction of the accumulator — and each
increment equals the configured hydraulic timestep, or is shorter and
lands exactly on a scheduled (event-truncating) control time. -/
theorem results_time_index (E : Engine) (s0 : SimState) (D : ℕ)
    (sf : SimState) (rows : List Row)
    (h : run_sim E s0 D = some (sf, rows)) :
    List.Chain'
      (fun a b => a < b ∧
        (b - a = E.opts.hts ∨
          (b - a < E.opts.hts ∧ b ∈ E.net.controls.map ControlS.time)))
      (s0.time :: rows.map Row.time) :=
  runGo_times_chain E D D s0 sf rows h

/-- Closed witness for `results_time_index` on the concrete 2-second
run of `engine0`: time index `[0, 1, 2]`. -/
theorem results_time_index_witness :
    List.Chain'
      (fun a b => a < b ∧
        (b - a = engine0.opts.hts ∨
          (b - a < engine0.opts.hts
            ∧ b ∈ engine0.net.controls.map ControlS.time)))
      ((initState net0).time :: [engine0_row1, engine0_row2].map Row.time) :=
  results_time_index engine0 (initState net0) 2 engine0_sf
    [engine0_row1, engine0_row2] engine0_run2

end WNTR
